import Mathlib

/-!
Verification development for the mymail backend sync engine.

Shallow embedding of the engine code in `src/backend/src`:
the request multiplexer and connection supervisor (`jmap_api.rs`),
the per-mailbox email syncer (`sync/sync_mailbox.rs`),
the mailbox-list syncer commit (`repo/mailboxes.rs`, `sync/sync_mailbox_list.rs`),
the email store operations (`repo/emails.rs`) and the
draft write-through pipeline (`api/drafts.rs`, `repo/drafts.rs`).

Asynchronous code is embedded as explicit step functions on the events the
source selects over; SQL statements are embedded as pure functions on a
`Store` record whose tables are lists of rows.  The database migrations are
not part of the sources, so two facts are modelled from the spec where
noted: the projected `subject` column of `emails`, and the foreign-key
cascades from `emails` and `mailboxes` to `mailbox_emails`.
-/

namespace MyMail

/-- Account identifier, an i64 in the source. -/
abbrev AccountId := Int

/-! ## Request multiplexer (`jmap_api.rs`, inner websocket loop)

The pending map `callbacks: HashMap<String, JmapRequestCallback>` is embedded
as an association list from request tags to callback identifiers. -/

/-- A tagged response envelope: the optional request id and the list of method
responses inside the envelope, in envelope order.  `α` abstracts the method
response payload. -/
structure TaggedResponse (α : Type) where
  requestId : Option String
  methodResponses : List α
  deriving Repr, DecidableEq

/-- The value a waiting caller receives: either one method response, or the
error `No method responses in tagged response` for an empty envelope. -/
inductive Delivered (α : Type) where
  | ok (r : α)
  | emptyEnvelopeError
  deriving Repr, DecidableEq

/-- What the source delivers from an envelope: `res.unwrap_method_responses().pop()`,
which removes and returns the LAST element of the vector. -/
def deliverFromEnvelope {α : Type} (l : List α) : Delivered α :=
  match l.getLast? with
  | some r => .ok r
  | none => .emptyEnvelopeError

/-- One step of the multiplexer on an inbound tagged response
(`Either::Left((Some(Ok(WebSocketMessage::Response(res))), _))` arm):
look the tag up in the callback map; if found, remove the entry and send the
popped method response to that callback; otherwise log and drop.
Returns the new callback map and the delivery made, if any. -/
def handle_tagged_response {α : Type} (callbacks : List (String × Nat))
    (res : TaggedResponse α) : List (String × Nat) × Option (Nat × Delivered α) :=
  match res.requestId with
  | none => (callbacks, none)
  | some rid =>
    match callbacks.lookup rid with
    | none => (callbacks, none)
    | some cb =>
      (callbacks.eraseP (fun p => p.1 == rid), some (cb, deliverFromEnvelope res.methodResponses))

/-! ## Connection supervisor (`jmap_api.rs`, `JmapApi::new` spawned task)

The inner loop exits for one of four reasons; the supervisor either publishes
`ClientState::Disconnected` and loops back to connect, or returns. -/

/-- The ways the inner multiplexer loop can exit in the source. -/
inductive MuxExit where
  | inboundStreamError
  | inboundStreamClosed
  | outboundSendError
  | requestChannelClosed
  deriving Repr, DecidableEq

/-- The payload of a published `ClientState::Disconnected`: whether
`last_error` is set, and the reconnect delay in seconds from now. -/
structure DisconnectInfo where
  hasLastError : Bool
  delaySecsFromNow : Nat
  deriving Repr, DecidableEq

/-- What happens after the multiplexer loop exits. -/
inductive SupervisorStep where
  | publishDisconnectedAndReconnect (d : DisconnectInfo)
  | terminate
  deriving Repr, DecidableEq

/-- The supervisor action for each exit reason, read off the four `select` arms:
a stream error and a send error publish `Disconnected { last_error: Some(e),
delay_connect_until: Some(now + 10s) }` and `break` back into the outer
connect loop; the arm
`Either::Left((None, _)) | Either::Right((None, _))` (inbound stream closed,
or request channel closed) logs and `return`s from the whole task. -/
def on_mux_exit : MuxExit → SupervisorStep
  | .inboundStreamError => .publishDisconnectedAndReconnect ⟨true, 10⟩
  | .outboundSendError => .publishDisconnectedAndReconnect ⟨true, 10⟩
  | .inboundStreamClosed => .terminate
  | .requestChannelClosed => .terminate

/-! ## Per-mailbox syncer outer loop (`sync/sync_mailbox.rs`, `sync_mailbox`) -/

/-- The outcome of the `select` between `wait_for_push_notification()` and
`watcher_requests.recv()` in `sync_mailbox`. -/
inductive MailboxSelectEvent where
  | pushReceived
  | pushError
  | watcherRequest (sendOk : Bool)
  | watcherChannelClosed
  deriving Repr, DecidableEq

/-- What one iteration of the `sync_mailbox` loop does next. -/
inductive MailboxLoopStep where
  | waitAgain
  | exitWithError
  | runSyncOnce
  deriving Repr, DecidableEq

/-- One iteration of the `sync_mailbox` outer loop, read off the `match` arms.
`receiverCount` is `state_tx.receiver_count()`.  Note that the
`Either::Right((None, _))` arm (watcher channel closed) only logs; control
falls through the `match` into the sync body (`state_tx.send(InProgress)`
followed by `sync_mailbox_once`). -/
def sync_mailbox_select_step (receiverCount : Nat) :
    MailboxSelectEvent → MailboxLoopStep
  | .pushReceived => if receiverCount < 2 then .waitAgain else .runSyncOnce
  | .pushError => .exitWithError
  | .watcherRequest true => .runSyncOnce
  | .watcherRequest false => .waitAgain
  | .watcherChannelClosed => .runSyncOnce

/-! ## The email-changes loop of `sync_mailbox_once` (`sync/sync_mailbox.rs`) -/

/-- The server response to `email-changes(since)`. -/
structure EmailChangesResponse where
  created : List String
  updated : List String
  destroyed : List String
  hasMoreChanges : Bool
  newState : String
  deriving Repr, DecidableEq

/-- The accumulated outcome of the changes loop: the "updated" ids, the
"deleted" ids, and the state to persist. -/
structure ChangesAccum where
  updated : List String
  deleted : List String
  newState : String
  deriving Repr, DecidableEq

/-- The `Some(last_state) => loop { ... }` branch of `sync_mailbox_once`,
parameterised by the server as a function from the since-state to the
response, and by fuel (the source loop has no bound).  Returns the list of
since-states actually sent, and the accumulated result, `none` when the loop
did not finish within the fuel.  The source never reassigns `last_state`
inside the loop: every iteration calls
`jmap_api.email_changes(last_state.clone())` with the same state; the order
of accumulation is `take_updated` then `take_created`. -/
def email_changes_loop (server : String → EmailChangesResponse)
    (lastState : String) : Nat → List String × Option ChangesAccum
  | 0 => ([], none)
  | fuel + 1 =>
    let ch := server lastState
    if ch.hasMoreChanges then
      let rest := email_changes_loop server lastState fuel
      (lastState :: rest.1,
       rest.2.map fun acc =>
         ⟨ch.updated ++ ch.created ++ acc.updated, ch.destroyed ++ acc.deleted, acc.newState⟩)
    else
      ([lastState], some ⟨ch.updated ++ ch.created, ch.destroyed, ch.newState⟩)

/-- Modelled from the spec: the loop as the spec describes it, in which each
subsequent request uses the previous response's `new_state` as its since
cursor.  Used only to exhibit the divergence from `email_changes_loop`. -/
def email_changes_loop_from_spec (server : String → EmailChangesResponse)
    (lastState : String) : Nat → List String × Option ChangesAccum
  | 0 => ([], none)
  | fuel + 1 =>
    let ch := server lastState
    if ch.hasMoreChanges then
      let rest := email_changes_loop_from_spec server ch.newState fuel
      (lastState :: rest.1,
       rest.2.map fun acc =>
         ⟨ch.updated ++ ch.created ++ acc.updated, ch.destroyed ++ acc.deleted, acc.newState⟩)
    else
      ([lastState], some ⟨ch.updated ++ ch.created, ch.destroyed, ch.newState⟩)

/-- A server whose change log at state `s0` has one more page: the response
to `since = s0` reports `has_more_changes` with `new_state = s1`, and the
response to any other state reports no more changes with `new_state = s2`. -/
def c1Server : String → EmailChangesResponse := fun s =>
  if s = "s0" then ⟨["e1"], [], [], true, "s1"⟩
  else ⟨["e2"], [], [], false, "s2"⟩

/-! ## Chunked get-emails requests of `sync_mailbox_once` -/

/-- Consecutive chunks of size `n` (fuel-indexed so that it computes by
`decide`); with `fuel = l.length` and `0 < n` the fuel never runs out. -/
def chunksOfAux {α : Type} (n : Nat) : Nat → List α → List (List α)
  | _, [] => []
  | 0, l => [l]
  | fuel + 1, l => l.take n :: chunksOfAux n fuel (l.drop n)

/-- Consecutive chunks of size `n`, as `itertools::chunks(n)` yields them. -/
def chunksOf {α : Type} (n : Nat) (l : List α) : List (List α) :=
  chunksOfAux n l.length l

/-- The id lists of the get-emails requests that `sync_mailbox_once` issues:
`for chunk in &updated.into_iter().chunks(200) { jmap_api.get_emails(chunk.collect(), None) }`.
The accumulated "updated" ids are chunked directly; nothing is filtered out
before the requests are built. -/
def getEmailRequests (updated : List String) : List (List String) :=
  chunksOf 200 updated

/-! ## The Store (`repo/`)

Tables are lists of rows; row order stands for rowid order.  `jmap_data` of
an email is embedded as a `JmapEmail`; the `subject` column of the `emails`
table is modelled from the spec as the projected `subject` field of
`jmap_data` (the migrations that declare the projection are not in the
sources; the spec states that `thread_id, received_at, subject` are
projected out of the metadata). -/

/-- A JMAP email as returned by get-emails: its server id, the mailbox ids it
belongs to, the projected subject, and the rest of the representation. -/
structure JmapEmail where
  id : String
  mailboxIds : List String
  subject : Option String
  payload : String
  deriving Repr, DecidableEq

/-- A row of the `emails` table. -/
structure EmailRow where
  accountId : AccountId
  id : String
  jmapData : JmapEmail
  deriving Repr, DecidableEq

/-- The jmap_data of a mailbox. -/
structure MailboxData where
  id : String
  payload : String
  deriving Repr, DecidableEq

/-- A row of the `mailboxes` table. -/
structure MailboxRow where
  accountId : AccountId
  id : String
  jmapData : MailboxData
  emailSyncState : Option String
  deriving Repr, DecidableEq

/-- A row of the `mailbox_emails` table. -/
structure MailboxEmailRow where
  accountId : AccountId
  mailboxId : String
  emailId : String
  deriving Repr, DecidableEq

/-- A row of the `accounts` table (the part the claims need). -/
structure AccountRow where
  id : AccountId
  mailboxesSyncState : Option String
  deriving Repr, DecidableEq

/-- The Store state: the four tables the claims are about. -/
structure Store where
  accounts : List AccountRow
  mailboxes : List MailboxRow
  emails : List EmailRow
  mailboxEmails : List MailboxEmailRow
  deriving Repr, DecidableEq

/-- Primary-key match on the `emails` table: `(account_id, id)`. -/
def emailKey (a : AccountId) (id : String) (r : EmailRow) : Bool :=
  r.accountId == a && r.id == id

/-- `Repository::find_missing_email_ids`: the given ids for which no
`emails` row with that account and id exists
(`SELECT value FROM json_each(?) WHERE NOT EXISTS (...)`). -/
def find_missing_email_ids (s : Store) (a : AccountId) (mailIds : List String) :
    List String :=
  mailIds.filter (fun id => !(s.emails.any (emailKey a id)))

/-- One row of the `emails` upsert of `Repository::update_emails`:
`INSERT INTO emails ... ON CONFLICT DO UPDATE SET jmap_data = EXCLUDED.jmap_data
WHERE subject IS NULL`.  On a key conflict the stored `jmap_data` is replaced
only when the existing row's projected subject is NULL; the second component
is the contribution to `rows_affected` (a skipped conflict update counts 0). -/
def upsertEmailRow (a : AccountId) (e : JmapEmail) (rows : List EmailRow) :
    List EmailRow × Nat :=
  match rows.find? (emailKey a e.id) with
  | none => (rows ++ [⟨a, e.id, e⟩], 1)
  | some r =>
    if r.jmapData.subject.isNone then
      (rows.map (fun r' => if emailKey a e.id r' then { r' with jmapData := e } else r'), 1)
    else
      (rows, 0)

/-- The whole `emails` upsert statement, one JSON row at a time. -/
def upsertEmails (a : AccountId) (rows : List EmailRow) :
    List JmapEmail → List EmailRow × Nat
  | [] => (rows, 0)
  | e :: rest =>
    let p := upsertEmailRow a e rows
    let q := upsertEmails a p.1 rest
    (q.1, p.2 + q.2)

/-- The `(mailbox_id, email_id)` pair list built in `update_emails`:
`emails.iter().flat_map(|email| email.mailbox_ids().map(|m| (m, email.id())))`. -/
def emailMailboxPairs (batch : List JmapEmail) : List (String × String) :=
  batch.flatMap (fun e => e.mailboxIds.map (fun m => (m, e.id)))

/-- Membership test for a `mailbox_emails` row with the given key. -/
def linkKey (a : AccountId) (m e : String) (l : MailboxEmailRow) : Bool :=
  l.accountId == a && l.mailboxId == m && l.emailId == e

/-- `INSERT OR IGNORE INTO mailbox_emails ...` over the pair list: a pair
already present is ignored, otherwise the row is appended; the second
component is `rows_affected`. -/
def insertIgnoreLinks (a : AccountId) (links : List MailboxEmailRow) :
    List (String × String) → List MailboxEmailRow × Nat
  | [] => (links, 0)
  | (m, e) :: rest =>
    if links.any (linkKey a m e) then insertIgnoreLinks a links rest
    else
      let q := insertIgnoreLinks a (links ++ [⟨a, m, e⟩]) rest
      (q.1, q.2 + 1)

/-- The WHERE condition of the `mailbox_emails` cleanup in `update_emails`:
the row's `(account_id, email_id)` appears in the pair list but its
`(account_id, mailbox_id, email_id)` does not. -/
def staleLink (a : AccountId) (pairs : List (String × String)) (l : MailboxEmailRow) :
    Bool :=
  l.accountId == a
    && pairs.any (fun p => p.2 == l.emailId)
    && !(pairs.any (fun p => p.1 == l.mailboxId && p.2 == l.emailId))

/-- The `DELETE FROM mailbox_emails WHERE ...` cleanup statement; the second
component is `rows_affected`. -/
def deleteStaleLinks (a : AccountId) (pairs : List (String × String))
    (links : List MailboxEmailRow) : List MailboxEmailRow × Nat :=
  (links.filter (fun l => !(staleLink a pairs l)),
   (links.filter (staleLink a pairs)).length)

/-- `Repository::update_emails`: upsert the email rows, insert the missing
mailbox memberships, delete the stale memberships of the paired emails.
The Boolean is whether the `emails, mailbox_emails` change event fired
(`changes > 0`).  In the source the first statement runs on the pool and the
other two inside the transaction; the committed success-path state is their
composition, as embedded here. -/
def update_emails (s : Store) (a : AccountId) (batch : List JmapEmail) :
    Store × Bool :=
  let up := upsertEmails a s.emails batch
  let pairs := emailMailboxPairs batch
  let ins := insertIgnoreLinks a s.mailboxEmails pairs
  let del := deleteStaleLinks a pairs ins.1
  ({ s with emails := up.1, mailboxEmails := del.1 },
   decide (0 < up.2 + ins.2 + del.2))

/-- `Repository::delete_emails`: delete the email rows of the given account
whose id is in the list.  Modelled from the spec: the migrations are not in
the sources, and the `MailboxEmail` invariant together with the cascade
described for mailbox deletion is embodied as a foreign-key cascade, so the
memberships of the deleted email rows are deleted with them.  The Boolean is
whether the `emails` change event fired (`rows_affected > 0`). -/
def delete_emails (s : Store) (a : AccountId) (ids : List String) :
    Store × Bool :=
  let removedEmail := fun (r : EmailRow) => r.accountId == a && ids.contains r.id
  let removed := s.emails.filter removedEmail
  ({ s with
      emails := s.emails.filter (fun r => !(removedEmail r)),
      mailboxEmails := s.mailboxEmails.filter (fun l =>
        !(removed.any (fun r => r.accountId == l.accountId && r.id == l.emailId))) },
   decide (0 < removed.length))

/-- The email metadata the Store hands back for one `(account, id)`: the
stored `jmap_data` of that row, as `Repository::get_emails` returns it
(`SELECT jmap_data FROM emails WHERE account_id = ?1 ...` deserialised
verbatim), restricted to the row lookup for a single email id. -/
def get_email_jmap_data (s : Store) (a : AccountId) (id : String) :
    Option JmapEmail :=
  (s.emails.find? (emailKey a id)).map (·.jmapData)

/-! ## Mailbox-list commit (`repo/mailboxes.rs`, `Repository::update_mailboxes`) -/

/-- Primary-key match on the `mailboxes` table: `(account_id, id)`. -/
def mailboxKey (a : AccountId) (id : String) (r : MailboxRow) : Bool :=
  r.accountId == a && r.id == id

/-- One row of the `mailboxes` upsert: `INSERT INTO mailboxes ... ON CONFLICT
DO UPDATE SET jmap_data = EXCLUDED.jmap_data` (no WHERE clause; only the
`jmap_data` column is set, `email_sync_state` of an existing row is kept;
a fresh row has NULL `email_sync_state`). -/
def upsertMailboxRow (a : AccountId) (m : MailboxData) (rows : List MailboxRow) :
    List MailboxRow :=
  if rows.any (mailboxKey a m.id) then
    rows.map (fun r => if mailboxKey a m.id r then { r with jmapData := m } else r)
  else rows ++ [⟨a, m.id, m, none⟩]

/-- The whole `mailboxes` upsert statement; the count is `rows_affected`,
which for this conflict clause counts every processed JSON row. -/
def upsertMailboxes (a : AccountId) (rows : List MailboxRow) :
    List MailboxData → List MailboxRow × Nat
  | [] => (rows, 0)
  | m :: rest =>
    let q := upsertMailboxes a (upsertMailboxRow a m rows) rest
    (q.1, q.2 + 1)

/-- `DELETE FROM mailboxes WHERE account_id = ? AND id IN (...)`.  Modelled
from the spec: mailbox deletion cascades to the mailbox-email links of the
deleted mailboxes (the migrations are not in the sources; the spec states
the cascade).  The count is `rows_affected` of the DELETE. -/
def deleteMailboxes (a : AccountId) (ids : List String) (s : Store) : Store × Nat :=
  let removedMb := fun (r : MailboxRow) => r.accountId == a && ids.contains r.id
  let removed := s.mailboxes.filter removedMb
  ({ s with
      mailboxes := s.mailboxes.filter (fun r => !(removedMb r)),
      mailboxEmails := s.mailboxEmails.filter (fun l =>
        !(removed.any (fun r => r.accountId == l.accountId && r.id == l.mailboxId))) },
   removed.length)

/-- `UPDATE accounts SET mailboxes_sync_state = ? WHERE id = ?`. -/
def set_mailboxes_sync_state (a : AccountId) (ns : String) (s : Store) : Store :=
  { s with
      accounts := s.accounts.map (fun r =>
        if r.id == a then { r with mailboxesSyncState := some ns } else r) }

/-- `Repository::get_mailboxes_sync_state`: `none` when the account row is
missing (the source turns that into an `Account not found` error), otherwise
the stored nullable cursor. -/
def get_mailboxes_sync_state (s : Store) (a : AccountId) : Option (Option String) :=
  (s.accounts.find? (fun r => r.id == a)).map (·.mailboxesSyncState)

/-- The body of `Repository::update_mailboxes` as the source runs it: all
three statements execute on the one transaction and `tx.commit()` comes
last, so a failure of statement `k` (signalled by `failAt = some k`, `k < 3`)
rolls everything back (`none`); on success the result carries the committed
state and whether the `mailboxes` change event fired
(`num_inserted > 0 || num_deleted > 0`). -/
def update_mailboxes_tx (s : Store) (a : AccountId) (newState : String)
    (updated : List MailboxData) (deleted : List String) (failAt : Option Nat) :
    Option (Store × Bool) :=
  if failAt = some 0 then none else
  let up := upsertMailboxes a s.mailboxes updated
  let s1 := { s with mailboxes := up.1 }
  if failAt = some 1 then none else
  let dl := deleteMailboxes a deleted s1
  if failAt = some 2 then none else
  let s3 := set_mailboxes_sync_state a newState dl.1
  some (s3, decide (0 < up.2) || decide (0 < dl.2))

/-- The persistent outcome of `update_mailboxes`: on a rollback the Store is
unchanged and no event fires (`none`); on commit the new state and the event
flag. -/
def update_mailboxes_run (s : Store) (a : AccountId) (newState : String)
    (updated : List MailboxData) (deleted : List String) (failAt : Option Nat) :
    Store × Option Bool :=
  match update_mailboxes_tx s a newState updated deleted failAt with
  | none => (s, none)
  | some (s', ev) => (s', some ev)

/-- The referential invariant of §3: every `mailbox_emails` row references an
existing `emails` row of the same account. -/
def ref_integrity (s : Store) : Prop :=
  ∀ l ∈ s.mailboxEmails, ∃ r ∈ s.emails, r.accountId = l.accountId ∧ r.id = l.emailId

/-! ## Draft write-through pipeline (`api/drafts.rs`, `repo/drafts.rs`) -/

/-- A row of the `drafts` table. -/
structure DraftRow where
  id : String
  accountId : AccountId
  jmapEmailId : Option String
  data : String
  updatedAt : Int
  deriving Repr, DecidableEq

/-- `DraftRepositoryExt::set_draft_jmap_id`:
`UPDATE drafts SET jmap_email_id = ? WHERE id = ? AND account_id = ?`. -/
def set_draft_jmap_id (drafts : List DraftRow) (a : AccountId) (id jid : String) :
    List DraftRow :=
  drafts.map (fun r =>
    if r.id == id && r.accountId == a then { r with jmapEmailId := some jid } else r)

/-- `DraftRepositoryExt::clear_draft_jmap_id`:
`UPDATE drafts SET jmap_email_id = NULL WHERE id = ? AND account_id = ?`. -/
def clear_draft_jmap_id (drafts : List DraftRow) (a : AccountId) (id : String) :
    List DraftRow :=
  drafts.map (fun r =>
    if r.id == id && r.accountId == a then { r with jmapEmailId := none } else r)

/-- The background task `sync_draft_update`, embedded as a function of the
outcome of `create_jmap_draft` (`some newId` on success, `none` on failure)
and of the captured `old_jmap_id`.  Returns the drafts table after the task
and the list of remote ids it asked `delete_jmap_email` to destroy:
on success it stores the new id and best-effort destroys the old copy if one
existed; on failure it clears `jmap_email_id` when `old_jmap_id` was set and
destroys nothing. -/
def sync_draft_update (createResult : Option String) (drafts : List DraftRow)
    (a : AccountId) (draftId : String) (oldJmapId : Option String) :
    List DraftRow × List String :=
  match createResult with
  | some newId =>
    let drafts1 := set_draft_jmap_id drafts a draftId newId
    match oldJmapId with
    | some oldId => (drafts1, [oldId])
    | none => (drafts1, [])
  | none =>
    match oldJmapId with
    | some _ => (clear_draft_jmap_id drafts a draftId, [])
    | none => (drafts, [])

/-! ## Claim theorems -/

/-- C1: against a server whose response to `since = s0` reports
`has_more_changes` with `new_state = s1`, the email-changes loop of
`sync_mailbox_once` issues its second request with `since = s0` again (the
claim requires `s1`) and never finishes for any amount of fuel, while the
loop as the spec words it advances the cursor and finishes with the last
response's `new_state`. -/
theorem C1_email_changes_cursor_never_advances :
    (email_changes_loop c1Server "s0" 2).1 = ["s0", "s0"]
    ∧ (c1Server "s0").hasMoreChanges = true
    ∧ (c1Server "s0").newState = "s1"
    ∧ (∀ fuel, (email_changes_loop c1Server "s0" fuel).2 = none)
    ∧ (email_changes_loop_from_spec c1Server "s0" 2).1 = ["s0", "s1"]
    ∧ (email_changes_loop_from_spec c1Server "s0" 2).2
        = some ⟨["e1", "e2"], [], "s2"⟩ := by
  refine ⟨by decide, by decide, by decide, ?_, by decide, by decide⟩
  intro fuel
  induction fuel with
  | zero => rfl
  | succ n ih => simp [email_changes_loop, c1Server, ih]

/-- C2 counterexample: when the multiplexer loop exits because the inbound
stream closed, the supervisor task terminates; it does not publish
`Disconnected` with `last_error` and a 10 second delay and does not
reconnect, contrary to the claim. -/
theorem C2_counterexample_stream_close_terminates :
    on_mux_exit .inboundStreamClosed = .terminate
    ∧ on_mux_exit .inboundStreamClosed
        ≠ .publishDisconnectedAndReconnect ⟨true, 10⟩ := by
  decide

/-- C2 (amended): the supervisor publishes `Disconnected` with `last_error`
set and `delay_until = now + 10s` and re-enters its connect loop exactly for
the inbound-stream-error and outbound-send-error exits; on inbound stream
close (and on request-channel close) the task terminates instead. -/
theorem C2_amended_reconnect_cases (e : MuxExit) :
    on_mux_exit e = .publishDisconnectedAndReconnect ⟨true, 10⟩
      ↔ (e = .inboundStreamError ∨ e = .outboundSendError) := by
  cases e <;> simp [on_mux_exit]

/-- C3 counterexample: for a pending tag and an envelope holding two method
responses, the multiplexer delivers the last response of the envelope, not
the first. -/
theorem C3_counterexample_delivers_last_not_first :
    (handle_tagged_response [("t1", 37)]
        (⟨some "t1", [(1 : Nat), 2]⟩ : TaggedResponse Nat)).2
      = some (37, Delivered.ok 2)
    ∧ (handle_tagged_response [("t1", 37)]
        (⟨some "t1", [(1 : Nat), 2]⟩ : TaggedResponse Nat)).2
      ≠ some (37, Delivered.ok 1)
    ∧ [(1 : Nat), 2].head? = some 1 := by
  decide

/-- C3 (amended): for every inbound tagged response whose tag is found in the
pending map, the multiplexer removes the entry and delivers to the waiting
caller exactly one method response, namely the LAST method response in the
response envelope (when the envelope is nonempty). -/
theorem C3_amended_delivers_exactly_one_last {α : Type}
    (callbacks : List (String × Nat)) (res : TaggedResponse α)
    (rid : String) (cb : Nat)
    (h1 : res.requestId = some rid) (h2 : callbacks.lookup rid = some cb)
    (h3 : res.methodResponses ≠ []) :
    (handle_tagged_response callbacks res).1
        = callbacks.eraseP (fun p => p.1 == rid)
    ∧ (handle_tagged_response callbacks res).2
        = some (cb, Delivered.ok (res.methodResponses.getLast h3)) := by
  unfold handle_tagged_response
  rw [h1]
  dsimp only
  rw [h2]
  refine ⟨rfl, ?_⟩
  simp only [deliverFromEnvelope]
  rw [List.getLast?_eq_getLast res.methodResponses h3]

/-- C3 witness: a concrete pending map and two-response envelope. -/
theorem C3_amended_delivers_exactly_one_last_witness :
    (handle_tagged_response [("t1", 37)]
        (⟨some "t1", [(5 : Nat), 6]⟩ : TaggedResponse Nat)).1 = []
    ∧ (handle_tagged_response [("t1", 37)]
        (⟨some "t1", [(5 : Nat), 6]⟩ : TaggedResponse Nat)).2
      = some (37, Delivered.ok 6) := by
  have h := C3_amended_delivers_exactly_one_last [("t1", 37)]
    (⟨some "t1", [(5 : Nat), 6]⟩ : TaggedResponse Nat) "t1" 37 rfl rfl (by decide)
  refine ⟨?_, ?_⟩
  · rw [h.1]; decide
  · rw [h.2]; decide

/-- C8: when the background remote create of a draft update fails, the
pipeline issues no destroy for the old copy; it clears `jmap_email_id` when
one was captured (every row of that draft ends with a NULL `jmap_email_id`),
and when none was captured it leaves the table untouched and still destroys
nothing. -/
theorem C8_update_create_failure_clears_id_no_destroy
    (drafts : List DraftRow) (a : AccountId) (draftId oldId : String) :
    (sync_draft_update none drafts a draftId (some oldId)).2 = []
    ∧ (∀ r ∈ (sync_draft_update none drafts a draftId (some oldId)).1,
        r.id = draftId → r.accountId = a → r.jmapEmailId = none)
    ∧ sync_draft_update none drafts a draftId none = (drafts, []) := by
  refine ⟨rfl, ?_, rfl⟩
  intro r hr hid hacc
  simp only [sync_draft_update, clear_draft_jmap_id, List.mem_map] at hr
  obtain ⟨r0, _, rfl⟩ := hr
  by_cases hc : (r0.id == draftId && r0.accountId == a) = true
  · simp [hc]
  · simp only [hc, Bool.false_eq_true, if_false] at hid hacc ⊢
    simp [hid, hacc] at hc

/-- C8 witness: one concrete draft row with a stale remote id. -/
theorem C8_update_create_failure_clears_id_no_destroy_witness :
    (sync_draft_update none [⟨"d1", 1, some "R1", "data", 7⟩] 1 "d1" (some "R1")).2 = []
    ∧ (⟨"d1", 1, none, "data", 7⟩ : DraftRow)
        ∈ (sync_draft_update none [⟨"d1", 1, some "R1", "data", 7⟩] 1 "d1" (some "R1")).1 := by
  have h := C8_update_create_failure_clears_id_no_destroy
    [⟨"d1", 1, some "R1", "data", 7⟩] 1 "d1" "R1"
  exact ⟨h.1, by decide⟩

/-- C9: when `watcher_requests.recv()` yields `None` (the channel is closed),
the `sync_mailbox` loop does not terminate: the closed-channel arm only logs
and control falls through into the sync body, so the iteration publishes
`InProgress` and runs `sync_mailbox_once`, for any receiver count. -/
theorem C9_closed_channel_falls_through_to_sync (receiverCount : Nat) :
    sync_mailbox_select_step receiverCount .watcherChannelClosed
      = .runSyncOnce := rfl

/-- Joining the chunks gives back the original list, provided the fuel covers
the length and chunks are nonzero-sized. -/
theorem chunksOfAux_join {α : Type} (n fuel : Nat) (hn : 0 < n) :
    ∀ l : List α, l.length ≤ fuel → (chunksOfAux n fuel l).flatten = l := by
  induction fuel with
  | zero =>
    intro l hl
    have hnil : l = [] := List.eq_nil_of_length_eq_zero (Nat.le_zero.mp hl)
    subst hnil
    rfl
  | succ m ih =>
    intro l hl
    cases l with
    | nil => rfl
    | cons x xs =>
      show (List.take n (x :: xs) :: chunksOfAux n m (List.drop n (x :: xs))).flatten
        = x :: xs
      rw [List.flatten_cons, ih _ ?_, List.take_append_drop]
      rw [List.length_drop]
      simp only [List.length_cons] at hl ⊢
      omega

/-- Every chunk produced has length at most `n`. -/
theorem chunksOfAux_length_le {α : Type} (n fuel : Nat) (hn : 0 < n) :
    ∀ l : List α, l.length ≤ fuel → ∀ c ∈ chunksOfAux n fuel l, c.length ≤ n := by
  induction fuel with
  | zero =>
    intro l hl c hc
    have hnil : l = [] := List.eq_nil_of_length_eq_zero (Nat.le_zero.mp hl)
    subst hnil
    simp [chunksOfAux] at hc
  | succ m ih =>
    intro l hl c hc
    cases l with
    | nil => simp [chunksOfAux] at hc
    | cons x xs =>
      have hshow : chunksOfAux n (m + 1) (x :: xs)
          = List.take n (x :: xs) :: chunksOfAux n m (List.drop n (x :: xs)) := rfl
      rw [hshow] at hc
      rcases List.mem_cons.mp hc with h | h
      · subst h
        exact List.length_take_le n (x :: xs)
      · refine ih _ ?_ c h
        rw [List.length_drop]
        simp only [List.length_cons] at hl ⊢
        omega

/-- A store already holding the email `e1` for account 1. -/
def c6Store : Store :=
  { accounts := [], mailboxes := [],
    emails := [⟨1, "e1", ⟨"e1", ["m1"], some "S", "payload"⟩⟩],
    mailboxEmails := [⟨1, "m1", "e1"⟩] }

/-- C6 counterexample: with `updated = [e1]` and a store that already holds
`e1`, the existence probe reports nothing missing, yet the get-emails
requests of `sync_mailbox_once` still carry `e1`: the ids fetched are not
the missing ids. -/
theorem C6_counterexample_fetches_non_missing_ids :
    find_missing_email_ids c6Store 1 ["e1"] = []
    ∧ (getEmailRequests ["e1"]).flatten ≠ find_missing_email_ids c6Store 1 ["e1"] := by
  decide

/-- C6 (amended): every get-emails request of `sync_mailbox_once` carries at
most 200 ids, and together the requests carry exactly the accumulated
"updated" ids — the whole set, with no reduction by the Store existence
probe (`find_missing_email_ids` is used by the query-watcher sync path, not
by `sync_mailbox_once`). -/
theorem C6_amended_chunks_cover_all_updated (updated : List String) :
    (∀ c ∈ getEmailRequests updated, c.length ≤ 200)
    ∧ (getEmailRequests updated).flatten = updated := by
  constructor
  · exact chunksOfAux_length_le 200 updated.length (by omega) updated le_rfl
  · exact chunksOfAux_join 200 updated.length (by omega) updated le_rfl

/-- C6 witness: one concrete updated list. -/
theorem C6_amended_chunks_cover_all_updated_witness :
    (["e1"] : List String).length ≤ 200
    ∧ (getEmailRequests ["e1"]).flatten = ["e1"] := by
  have h := C6_amended_chunks_cover_all_updated ["e1"]
  exact ⟨h.1 ["e1"] (by decide), h.2⟩

/-! ## Helper lemmas about the email upsert and the membership reconciliation -/

/-- `find?` over an appended list. -/
theorem find?_append {α : Type} (p : α → Bool) (l1 l2 : List α) :
    (l1 ++ l2).find? p = ((l1.find? p).orElse (fun _ => l2.find? p)) := by
  induction l1 with
  | nil => rfl
  | cons x xs ih =>
    simp only [List.cons_append, List.find?]
    cases p x <;> simp [ih]

/-- `find?` commutes with a map that does not disturb the predicate. -/
theorem find?_map_key {α : Type} (p : α → Bool) (f : α → α) (l : List α)
    (hp : ∀ x, p (f x) = p x) :
    (l.map f).find? p = (l.find? p).map f := by
  induction l with
  | nil => rfl
  | cons x xs ih =>
    simp only [List.map_cons, List.find?]
    rw [hp x]
    cases p x <;> simp [ih]

/-- A list has a row with a given link key exactly when the key row itself is
a member. -/
theorem any_linkKey_iff (a : AccountId) (m e : String) (links : List MailboxEmailRow) :
    links.any (linkKey a m e) = true ↔ (⟨a, m, e⟩ : MailboxEmailRow) ∈ links := by
  rw [List.any_eq_true]
  constructor
  · rintro ⟨x, hx, hkey⟩
    obtain ⟨xa, xm, xe⟩ := x
    simp only [linkKey, Bool.and_eq_true, beq_iff_eq] at hkey
    obtain ⟨⟨rfl, rfl⟩, rfl⟩ := hkey
    exact hx
  · intro h
    exact ⟨_, h, by simp [linkKey]⟩

/-- Membership after the insert-or-ignore statement: exactly the old rows and
the rows of the pair list. -/
theorem insertIgnoreLinks_mem_iff (a : AccountId) :
    ∀ (pairs : List (String × String)) (links : List MailboxEmailRow)
      (l : MailboxEmailRow),
      l ∈ (insertIgnoreLinks a links pairs).1
        ↔ (l ∈ links ∨ ∃ p ∈ pairs, l = ⟨a, p.1, p.2⟩) := by
  intro pairs
  induction pairs with
  | nil =>
    intro links l
    simp [insertIgnoreLinks]
  | cons hd tl ih =>
    intro links l
    obtain ⟨m, e⟩ := hd
    show l ∈ (if links.any (linkKey a m e) then insertIgnoreLinks a links tl
        else ((insertIgnoreLinks a (links ++ [⟨a, m, e⟩]) tl).1,
              (insertIgnoreLinks a (links ++ [⟨a, m, e⟩]) tl).2 + 1)).1 ↔ _
    by_cases hmem : links.any (linkKey a m e) = true
    · rw [if_pos hmem]
      rw [ih links l]
      constructor
      · rintro (h | ⟨p, hp, rfl⟩)
        · exact Or.inl h
        · exact Or.inr ⟨p, List.mem_cons_of_mem _ hp, rfl⟩
      · rintro (h | ⟨p, hp, rfl⟩)
        · exact Or.inl h
        · rcases List.mem_cons.mp hp with heq | hp'
          · subst heq
            exact Or.inl ((any_linkKey_iff a m e links).mp hmem)
          · exact Or.inr ⟨p, hp', rfl⟩
    · rw [if_neg hmem]
      dsimp only
      rw [ih (links ++ [(⟨a, m, e⟩ : MailboxEmailRow)]) l]
      rw [List.mem_append, List.mem_singleton]
      constructor
      · rintro ((h | rfl) | ⟨p, hp, rfl⟩)
        · exact Or.inl h
        · exact Or.inr ⟨(m, e), List.mem_cons_self _ _, rfl⟩
        · exact Or.inr ⟨p, List.mem_cons_of_mem _ hp, rfl⟩
      · rintro (h | ⟨p, hp, rfl⟩)
        · exact Or.inl (Or.inl h)
        · rcases List.mem_cons.mp hp with heq | hp'
          · subst heq
            exact Or.inl (Or.inr rfl)
          · exact Or.inr ⟨p, hp', rfl⟩

/-- Membership in the reconciled `mailbox_emails` table after `update_emails`:
a row survives exactly when it is an old row or a row of the pair list, and
the cleanup condition does not hold of it. -/
theorem update_emails_links_mem (s : Store) (a : AccountId)
    (batch : List JmapEmail) (l : MailboxEmailRow) :
    l ∈ (update_emails s a batch).1.mailboxEmails
      ↔ ((l ∈ s.mailboxEmails ∨ ∃ p ∈ emailMailboxPairs batch, l = ⟨a, p.1, p.2⟩)
          ∧ staleLink a (emailMailboxPairs batch) l = false) := by
  unfold update_emails deleteStaleLinks
  dsimp only
  rw [List.mem_filter, insertIgnoreLinks_mem_iff, Bool.not_eq_true']

/-- The pair list contains exactly the mailbox memberships declared by the
batch. -/
theorem mem_emailMailboxPairs (batch : List JmapEmail) (p : String × String) :
    p ∈ emailMailboxPairs batch
      ↔ ∃ e' ∈ batch, p.1 ∈ e'.mailboxIds ∧ p.2 = e'.id := by
  unfold emailMailboxPairs
  rw [List.mem_flatMap]
  constructor
  · rintro ⟨e', he', hp⟩
    rw [List.mem_map] at hp
    obtain ⟨m, hm, rfl⟩ := hp
    exact ⟨e', he', hm, rfl⟩
  · rintro ⟨e', he', hm, hid⟩
    refine ⟨e', he', ?_⟩
    rw [List.mem_map]
    exact ⟨p.1, hm, by obtain ⟨p1, p2⟩ := p; simp_all⟩

/-- The single-row email upsert keeps every `(account, id)` key that was
present. -/
theorem upsertEmailRow_key_mono (a : AccountId) (e : JmapEmail)
    (rows : List EmailRow) (x : AccountId) (y : String)
    (h : ∃ r ∈ rows, r.accountId = x ∧ r.id = y) :
    ∃ r ∈ (upsertEmailRow a e rows).1, r.accountId = x ∧ r.id = y := by
  obtain ⟨r, hr, hk⟩ := h
  unfold upsertEmailRow
  cases hfind : rows.find? (emailKey a e.id) with
  | none =>
    exact ⟨r, List.mem_append_left _ hr, hk⟩
  | some r0 =>
    dsimp only
    by_cases hs : r0.jmapData.subject.isNone = true
    · rw [if_pos hs]
      refine ⟨if emailKey a e.id r then { r with jmapData := e } else r,
        List.mem_map_of_mem _ hr, ?_⟩
      by_cases hc : emailKey a e.id r = true <;> simp [hc, hk.1, hk.2]
    · rw [if_neg hs]
      exact ⟨r, hr, hk⟩

/-- The whole email upsert keeps every `(account, id)` key that was present. -/
theorem upsertEmails_key_mono (a : AccountId) (batch : List JmapEmail)
    (rows : List EmailRow) (x : AccountId) (y : String)
    (h : ∃ r ∈ rows, r.accountId = x ∧ r.id = y) :
    ∃ r ∈ (upsertEmails a rows batch).1, r.accountId = x ∧ r.id = y := by
  induction batch generalizing rows with
  | nil => exact h
  | cons hd tl ih =>
    show ∃ r ∈ (upsertEmails a (upsertEmailRow a hd rows).1 tl).1, _
    exact ih _ (upsertEmailRow_key_mono a hd rows x y h)

/-- After upserting a row, its `(account, id)` key is present. -/
theorem upsertEmailRow_self_key (a : AccountId) (e : JmapEmail)
    (rows : List EmailRow) :
    ∃ r ∈ (upsertEmailRow a e rows).1, r.accountId = a ∧ r.id = e.id := by
  unfold upsertEmailRow
  cases hfind : rows.find? (emailKey a e.id) with
  | none =>
    exact ⟨⟨a, e.id, e⟩, List.mem_append_right _ (List.mem_singleton_self _), rfl, rfl⟩
  | some r0 =>
    have hr0mem := List.mem_of_find?_eq_some hfind
    have hr0key := List.find?_some hfind
    have hk : r0.accountId = a ∧ r0.id = e.id := by
      simpa [emailKey, Bool.and_eq_true, beq_iff_eq] using hr0key
    dsimp only
    by_cases hs : r0.jmapData.subject.isNone = true
    · rw [if_pos hs]
      refine ⟨{ r0 with jmapData := e }, ?_, hk.1, hk.2⟩
      have hmap := List.mem_map_of_mem
        (fun r' => if emailKey a e.id r' then { r' with jmapData := e } else r') hr0mem
      simpa [hr0key] using hmap
    · rw [if_neg hs]
      exact ⟨r0, hr0mem, hk⟩

/-- Every batch member's `(account, id)` key is present after the upsert. -/
theorem upsertEmails_batch_key (a : AccountId) (batch : List JmapEmail)
    (rows : List EmailRow) (e : JmapEmail) (he : e ∈ batch) :
    ∃ r ∈ (upsertEmails a rows batch).1, r.accountId = a ∧ r.id = e.id := by
  induction batch generalizing rows with
  | nil => cases he
  | cons hd tl ih =>
    rcases List.mem_cons.mp he with rfl | he'
    · exact upsertEmails_key_mono a tl _ a e.id (upsertEmailRow_self_key a e rows)
    · exact ih _ he'

/-- Characterisation of the rows present after a single-row upsert. -/
theorem upsertEmailRow_mem (a : AccountId) (e' : JmapEmail) (rows : List EmailRow)
    (r : EmailRow) (hr : r ∈ (upsertEmailRow a e' rows).1) :
    r ∈ rows ∨ r = ⟨a, e'.id, e'⟩
      ∨ ∃ r0 ∈ rows, r = { r0 with jmapData := e' } ∧ emailKey a e'.id r0 = true := by
  unfold upsertEmailRow at hr
  cases hfind : rows.find? (emailKey a e'.id) with
  | none =>
    rw [hfind] at hr
    dsimp only at hr
    rcases List.mem_append.mp hr with h | h
    · exact Or.inl h
    · exact Or.inr (Or.inl (List.mem_singleton.mp h))
  | some r0 =>
    rw [hfind] at hr
    dsimp only at hr
    by_cases hs : r0.jmapData.subject.isNone = true
    · rw [if_pos hs] at hr
      rcases List.mem_map.mp hr with ⟨r1, hr1, heq⟩
      by_cases hc : emailKey a e'.id r1 = true
      · rw [if_pos hc] at heq
        exact Or.inr (Or.inr ⟨r1, hr1, heq.symm, hc⟩)
      · rw [if_neg hc] at heq
        exact Or.inl (heq ▸ hr1)
    · rw [if_neg hs] at hr
      exact Or.inl hr

/-- The all-subjects-NULL condition on the rows of one key survives the
upsert of a different email id. -/
theorem upsertEmailRow_fresh_preserved (a : AccountId) (hd : JmapEmail)
    (rows : List EmailRow) (id : String) (hne : hd.id ≠ id)
    (hfresh : ∀ r ∈ rows, emailKey a id r = true → r.jmapData.subject = none) :
    ∀ r ∈ (upsertEmailRow a hd rows).1,
      emailKey a id r = true → r.jmapData.subject = none := by
  intro r hr hkey
  rcases upsertEmailRow_mem a hd rows r hr with h | h | ⟨r0, hr0, rfl, hc⟩
  · exact hfresh r h hkey
  · subst h
    simp only [emailKey, Bool.and_eq_true, beq_iff_eq] at hkey
    exact absurd hkey.2 hne
  · simp only [emailKey, Bool.and_eq_true, beq_iff_eq] at hkey hc
    exact absurd (hc.2.symm.trans hkey.2) hne

/-- Upserting emails of other ids leaves the lookup of a key unchanged. -/
theorem upsertEmailRow_find?_other (a : AccountId) (hd : JmapEmail)
    (rows : List EmailRow) (id : String) (hne : hd.id ≠ id) :
    (upsertEmailRow a hd rows).1.find? (emailKey a id)
      = rows.find? (emailKey a id) := by
  unfold upsertEmailRow
  cases hfind : rows.find? (emailKey a hd.id) with
  | none =>
    dsimp only
    rw [find?_append]
    have hbne : (hd.id == id) = false := beq_eq_false_iff_ne.mpr hne
    have hsingle : List.find? (emailKey a id) [(⟨a, hd.id, hd⟩ : EmailRow)] = none := by
      simp [List.find?, emailKey, hbne]
    rw [hsingle]
    cases rows.find? (emailKey a id) <;> rfl
  | some r0 =>
    dsimp only
    by_cases hs : r0.jmapData.subject.isNone = true
    · rw [if_pos hs]
      rw [find?_map_key]
      · cases hfind2 : rows.find? (emailKey a id) with
        | none => rfl
        | some r1 =>
          have hkey1 := List.find?_some hfind2
          simp only [emailKey, Bool.and_eq_true, beq_iff_eq] at hkey1
          have hb : (r1.id == hd.id) = false := by
            rw [beq_eq_false_iff_ne, hkey1.2]
            exact fun h => hne h.symm
          have hfalse : emailKey a hd.id r1 = false := by
            simp [emailKey, hb]
          simp [hfalse]
      · intro x
        by_cases hc : emailKey a hd.id x = true
        · rw [if_pos hc]
          rfl
        · rw [if_neg hc]
    · rw [if_neg hs]

/-- The whole upsert over a batch of other ids leaves the lookup unchanged. -/
theorem upsertEmails_find?_other (a : AccountId) (batch : List JmapEmail)
    (id : String) (hnin : ∀ e' ∈ batch, e'.id ≠ id) :
    ∀ rows : List EmailRow,
      (upsertEmails a rows batch).1.find? (emailKey a id)
        = rows.find? (emailKey a id) := by
  induction batch with
  | nil => intro rows; rfl
  | cons hd tl ih =>
    intro rows
    have h1 : ∀ e' ∈ tl, e'.id ≠ id :=
      fun e' he' => hnin e' (List.mem_cons_of_mem _ he')
    show (upsertEmails a (upsertEmailRow a hd rows).1 tl).1.find? (emailKey a id)
      = rows.find? (emailKey a id)
    rw [ih h1, upsertEmailRow_find?_other a hd rows id
      (hnin hd (List.mem_cons_self _ _))]

/-- When every stored row of the key has a NULL subject (in particular when
there is none), the single-row upsert makes the lookup return the new data. -/
theorem upsertEmailRow_find?_self (a : AccountId) (e : JmapEmail)
    (rows : List EmailRow)
    (hfresh : ∀ r ∈ rows, emailKey a e.id r = true → r.jmapData.subject = none) :
    ∃ r', (upsertEmailRow a e rows).1.find? (emailKey a e.id) = some r'
      ∧ r'.jmapData = e := by
  unfold upsertEmailRow
  cases hfind : rows.find? (emailKey a e.id) with
  | none =>
    dsimp only
    rw [find?_append, hfind]
    refine ⟨⟨a, e.id, e⟩, ?_, rfl⟩
    simp [List.find?, emailKey]
  | some r0 =>
    have hr0mem := List.mem_of_find?_eq_some hfind
    have hr0key := List.find?_some hfind
    have hs0 : r0.jmapData.subject = none := hfresh r0 hr0mem hr0key
    dsimp only
    rw [if_pos (by simp [hs0])]
    rw [find?_map_key _ _ _ (fun x => by
      by_cases hc : emailKey a e.id x = true
      · rw [if_pos hc]
        rfl
      · rw [if_neg hc])]
    rw [hfind]
    refine ⟨_, rfl, ?_⟩
    dsimp only
    rw [if_pos hr0key]

/-- With distinct batch ids, the upsert writes each batch member whose
pre-existing rows (if any) all have a NULL subject: the subsequent lookup
returns precisely the new metadata. -/
theorem upsertEmails_find?_written (a : AccountId) (batch : List JmapEmail)
    (e : JmapEmail) (hnodup : (batch.map JmapEmail.id).Nodup) (he : e ∈ batch) :
    ∀ rows : List EmailRow,
      (∀ r ∈ rows, emailKey a e.id r = true → r.jmapData.subject = none) →
      ∃ r', (upsertEmails a rows batch).1.find? (emailKey a e.id) = some r'
        ∧ r'.jmapData = e := by
  induction batch with
  | nil => cases he
  | cons hd tl ih =>
    intro rows hfresh
    have hnodup2 := (List.nodup_cons.mp hnodup).2
    have hnotmem := (List.nodup_cons.mp hnodup).1
    rcases List.mem_cons.mp he with rfl | he'
    · have hni : ∀ e' ∈ tl, e'.id ≠ e.id := by
        intro e' he'' hcontra
        exact hnotmem (hcontra ▸ List.mem_map_of_mem JmapEmail.id he'')
      show ∃ r', (upsertEmails a (upsertEmailRow a e rows).1 tl).1.find?
          (emailKey a e.id) = some r' ∧ r'.jmapData = e
      rw [upsertEmails_find?_other a tl e.id hni]
      exact upsertEmailRow_find?_self a e rows hfresh
    · have hne : hd.id ≠ e.id := by
        intro hcontra
        exact hnotmem (hcontra ▸ List.mem_map_of_mem JmapEmail.id he')
      exact ih hnodup2 he' _
        (upsertEmailRow_fresh_preserved a hd rows e.id hne hfresh)

/-- The email representation stored for account 1 with a non-NULL subject. -/
def c7Old : JmapEmail := ⟨"e", ["m1"], some "Old subject", "old payload"⟩

/-- A fresher server representation of the same email. -/
def c7New : JmapEmail := ⟨"e", ["m1"], some "New subject", "new payload"⟩

/-- A store that already holds `c7Old` for `(1, e)`. -/
def c7Store : Store :=
  { accounts := [], mailboxes := [],
    emails := [⟨1, "e", c7Old⟩], mailboxEmails := [⟨1, "m1", "e"⟩] }

/-- C7 counterexample: the email `(1, e)` is already stored with a non-NULL
subject; writing the freshly fetched `c7New` through `update_emails` leaves
the old metadata in place (the upsert's `WHERE subject IS NULL` guard skips
the overwrite), so the subsequent read returns `c7Old`, not the metadata
that was fetched. -/
theorem C7_counterexample_stale_subject_not_overwritten :
    get_email_jmap_data (update_emails c7Store 1 [c7New]).1 1 "e" = some c7Old
    ∧ c7Old ≠ c7New := by
  decide

/-- C7 (amended): the write-then-read round-trip returns exactly the fetched
metadata for every batch email (distinct ids in the batch) that was not
already stored, or whose stored rows all have a NULL projected subject;
when a row with a non-NULL subject exists, the stored metadata is kept. -/
theorem C7_amended_roundtrip_when_fresh (s : Store) (a : AccountId)
    (batch : List JmapEmail) (e : JmapEmail)
    (hnodup : (batch.map JmapEmail.id).Nodup) (he : e ∈ batch)
    (hfresh : ∀ r ∈ s.emails, emailKey a e.id r = true → r.jmapData.subject = none) :
    get_email_jmap_data (update_emails s a batch).1 a e.id = some e := by
  obtain ⟨r', hfind, hdata⟩ :=
    upsertEmails_find?_written a batch e hnodup he s.emails hfresh
  unfold get_email_jmap_data update_emails
  dsimp only
  rw [hfind]
  simp [hdata]

/-- C7 witness: writing one email into an empty store and reading it back. -/
theorem C7_amended_roundtrip_when_fresh_witness :
    get_email_jmap_data
      (update_emails ⟨[], [], [], []⟩ 1 [c7New]).1 1 c7New.id = some c7New :=
  C7_amended_roundtrip_when_fresh ⟨[], [], [], []⟩ 1 [c7New] c7New
    (by decide) (by decide) (by decide)

/-! ## Pair-list lemmas for the membership reconciliation -/

/-- With distinct batch ids, a pair with second component `e.id` comes from
`e` itself. -/
theorem pairs_snd_eq_iff (batch : List JmapEmail) (e : JmapEmail)
    (hnodup : (batch.map JmapEmail.id).Nodup) (he : e ∈ batch) (m : String) :
    (m, e.id) ∈ emailMailboxPairs batch ↔ m ∈ e.mailboxIds := by
  rw [mem_emailMailboxPairs]
  constructor
  · rintro ⟨e', he', hm, hid⟩
    have heq : e' = e :=
      List.inj_on_of_nodup_map hnodup he' he hid.symm
    exact heq ▸ hm
  · intro hm
    exact ⟨e, he, hm, rfl⟩

/-- With distinct batch ids, some pair has second component `e.id` exactly
when `e` declares at least one mailbox. -/
theorem pairs_has_snd_iff (batch : List JmapEmail) (e : JmapEmail)
    (hnodup : (batch.map JmapEmail.id).Nodup) (he : e ∈ batch) :
    (emailMailboxPairs batch).any (fun p => p.2 == e.id) = true
      ↔ e.mailboxIds ≠ [] := by
  rw [List.any_eq_true]
  constructor
  · rintro ⟨p, hp, hbeq⟩
    rw [beq_iff_eq] at hbeq
    rw [mem_emailMailboxPairs] at hp
    obtain ⟨e', he', hm, hid⟩ := hp
    have heq : e' = e :=
      List.inj_on_of_nodup_map hnodup he' he (hid.symm.trans hbeq)
    subst heq
    intro hnil
    rw [hnil] at hm
    cases hm
  · intro hne
    obtain ⟨m0, hm0⟩ := List.exists_mem_of_ne_nil _ hne
    exact ⟨(m0, e.id), (mem_emailMailboxPairs batch (m0, e.id)).mpr ⟨e, he, hm0, rfl⟩,
      by simp⟩

/-- The exact-pair test of the cleanup condition is pair-list membership. -/
theorem any_pair_match_iff (pairs : List (String × String)) (m x : String) :
    pairs.any (fun p => p.1 == m && p.2 == x) = true ↔ (m, x) ∈ pairs := by
  rw [List.any_eq_true]
  constructor
  · rintro ⟨⟨p1, p2⟩, hp, hb⟩
    simp only [Bool.and_eq_true, beq_iff_eq] at hb
    obtain ⟨rfl, rfl⟩ := hb
    exact hp
  · intro h
    exact ⟨(m, x), h, by simp⟩

/-- The email whose update carries no mailbox memberships. -/
def c10Email : JmapEmail := ⟨"e", [], some "S", "payload"⟩

/-- A store where email `e` of account 1 is stored and is a member of
mailbox `m`. -/
def c10Store : Store :=
  { accounts := [], mailboxes := [],
    emails := [⟨1, "e", ⟨"e", ["m"], some "S", "old"⟩⟩],
    mailboxEmails := [⟨1, "m", "e"⟩] }

/-- C10 counterexample: a batch email with empty `mailbox_ids` does not have
its stored memberships reconciled — the cleanup only touches emails that
appear in the pair list, so the stale row `(1, m, e)` survives even though
`m` is not among the email's mailbox ids. -/
theorem C10_counterexample_empty_mailboxIds_keeps_stale_rows :
    (⟨1, "m", "e"⟩ : MailboxEmailRow)
        ∈ (update_emails c10Store 1 [c10Email]).1.mailboxEmails
    ∧ c10Email.mailboxIds = [] ∧ c10Email.id = "e" := by
  decide

/-- C10 (amended): after `update_emails` with distinct batch ids, (1) for a
batch email with at least one mailbox id, its membership rows are exactly its
`mailbox_ids`; (2) for a batch email with empty `mailbox_ids`, its membership
rows are left unchanged; (3) rows of a different account, or of emails not in
the batch, are left unchanged. -/
theorem C10_amended_membership_reconciliation (s : Store) (a : AccountId)
    (batch : List JmapEmail) (e : JmapEmail)
    (hnodup : (batch.map JmapEmail.id).Nodup) (he : e ∈ batch) :
    (e.mailboxIds ≠ [] →
      ∀ m, ((⟨a, m, e.id⟩ : MailboxEmailRow)
              ∈ (update_emails s a batch).1.mailboxEmails
            ↔ m ∈ e.mailboxIds))
    ∧ (e.mailboxIds = [] →
      ∀ m, ((⟨a, m, e.id⟩ : MailboxEmailRow)
              ∈ (update_emails s a batch).1.mailboxEmails
            ↔ (⟨a, m, e.id⟩ : MailboxEmailRow) ∈ s.mailboxEmails))
    ∧ (∀ l : MailboxEmailRow,
        (l.accountId ≠ a ∨ ∀ e' ∈ batch, l.emailId ≠ e'.id) →
        (l ∈ (update_emails s a batch).1.mailboxEmails ↔ l ∈ s.mailboxEmails)) := by
  refine ⟨?_, ?_, ?_⟩
  · intro hne m
    rw [update_emails_links_mem]
    by_cases hm : m ∈ e.mailboxIds
    · have hpair : (m, e.id) ∈ emailMailboxPairs batch :=
        (pairs_snd_eq_iff batch e hnodup he m).mpr hm
      have hstale : staleLink a (emailMailboxPairs batch) (⟨a, m, e.id⟩ : MailboxEmailRow) = false := by
        have h3 : (emailMailboxPairs batch).any
            (fun p => p.1 == m && p.2 == e.id) = true :=
          (any_pair_match_iff _ m e.id).mpr hpair
        simp [staleLink, h3]
      simp only [hm, iff_true]
      exact ⟨Or.inr ⟨(m, e.id), hpair, rfl⟩, hstale⟩
    · have hnopair : (m, e.id) ∉ emailMailboxPairs batch :=
        fun hcon => hm ((pairs_snd_eq_iff batch e hnodup he m).mp hcon)
      have h2 : (emailMailboxPairs batch).any (fun p => p.2 == e.id) = true :=
        (pairs_has_snd_iff batch e hnodup he).mpr hne
      have h3 : (emailMailboxPairs batch).any
          (fun p => p.1 == m && p.2 == e.id) = false := by
        rw [← Bool.not_eq_true]
        intro hcon
        exact hnopair ((any_pair_match_iff _ m e.id).mp hcon)
      have hstale : staleLink a (emailMailboxPairs batch) (⟨a, m, e.id⟩ : MailboxEmailRow) = true := by
        simp [staleLink, h2, h3]
      simp only [hm, iff_false]
      rintro ⟨-, hfalse⟩
      rw [hstale] at hfalse
      cases hfalse
  · intro hnil m
    rw [update_emails_links_mem]
    have h2 : (emailMailboxPairs batch).any (fun p => p.2 == e.id) = false := by
      rw [← Bool.not_eq_true]
      intro hcon
      exact ((pairs_has_snd_iff batch e hnodup he).mp hcon) hnil
    have hstale : staleLink a (emailMailboxPairs batch) (⟨a, m, e.id⟩ : MailboxEmailRow) = false := by
      simp [staleLink, h2]
    have hnopair : ¬ ∃ p ∈ emailMailboxPairs batch,
        (⟨a, m, e.id⟩ : MailboxEmailRow) = ⟨a, p.1, p.2⟩ := by
      rintro ⟨p, hp, heq⟩
      simp only [MailboxEmailRow.mk.injEq] at heq
      have hsnd : p.2 = e.id := heq.2.2.symm
      have : (emailMailboxPairs batch).any (fun p => p.2 == e.id) = true :=
        List.any_eq_true.mpr ⟨p, hp, by simp [hsnd]⟩
      rw [h2] at this
      cases this
    constructor
    · rintro ⟨hold | hpair, -⟩
      · exact hold
      · exact absurd hpair hnopair
    · intro hold
      exact ⟨Or.inl hold, hstale⟩
  · intro l hl
    rw [update_emails_links_mem]
    have hnopair : ¬ ∃ p ∈ emailMailboxPairs batch, l = ⟨a, p.1, p.2⟩ := by
      rintro ⟨p, hp, rfl⟩
      rw [mem_emailMailboxPairs] at hp
      obtain ⟨e', he', hm, hid⟩ := hp
      rcases hl with hacc | hids
      · exact hacc rfl
      · exact hids e' he' hid
    have hstale : staleLink a (emailMailboxPairs batch) l = false := by
      rcases hl with hacc | hids
      · have : (l.accountId == a) = false := beq_eq_false_iff_ne.mpr hacc
        simp [staleLink, this]
      · have h2 : (emailMailboxPairs batch).any (fun p => p.2 == l.emailId) = false := by
          rw [← Bool.not_eq_true]
          intro hcon
          obtain ⟨p, hp, hb⟩ := List.any_eq_true.mp hcon
          rw [beq_iff_eq] at hb
          rw [mem_emailMailboxPairs] at hp
          obtain ⟨e', he', hm, hid⟩ := hp
          exact hids e' he' (hb.symm.trans hid)
        simp [staleLink, h2]
    constructor
    · rintro ⟨hold | hpair, -⟩
      · exact hold
      · exact absurd hpair hnopair
    · intro hold
      exact ⟨Or.inl hold, hstale⟩

/-- A store with one stale membership row for the email about to be written. -/
def c10WStore : Store :=
  { accounts := [], mailboxes := [], emails := [],
    mailboxEmails := [⟨1, "mOld", "eX"⟩] }

/-- The email whose update moves it from `mOld` to `mNew`. -/
def c10WEmail : JmapEmail := ⟨"eX", ["mNew"], some "S", "p"⟩

/-- C10 witness: after the write, membership of `eX` holds exactly for
`mNew` and no longer for `mOld`. -/
theorem C10_amended_membership_reconciliation_witness :
    ((⟨1, "mNew", "eX"⟩ : MailboxEmailRow)
        ∈ (update_emails c10WStore 1 [c10WEmail]).1.mailboxEmails
      ↔ "mNew" ∈ c10WEmail.mailboxIds)
    ∧ ((⟨1, "mOld", "eX"⟩ : MailboxEmailRow)
        ∈ (update_emails c10WStore 1 [c10WEmail]).1.mailboxEmails
      ↔ "mOld" ∈ c10WEmail.mailboxIds) := by
  have h := C10_amended_membership_reconciliation c10WStore 1 [c10WEmail] c10WEmail
    (by decide) (by decide)
  exact ⟨h.1 (by decide) "mNew", h.1 (by decide) "mOld"⟩

/-- C4: each of the three store operations preserves the referential
invariant: after `update_emails` (the email rows are upserted before the
membership rows are inserted, and inserted memberships reference batch
emails), after `delete_emails` (the cascade removes the memberships of the
deleted rows), and after a committed `update_mailboxes` (which touches no
email row and only deletes membership rows). -/
theorem C4_ref_integrity_preserved (s : Store) (a a2 a3 : AccountId)
    (batch : List JmapEmail) (ids : List String) (ns : String)
    (upd : List MailboxData) (del : List String)
    (h : ref_integrity s) :
    ref_integrity (update_emails s a batch).1
    ∧ ref_integrity (delete_emails s a2 ids).1
    ∧ ref_integrity (update_mailboxes_run s a3 ns upd del none).1 := by
  refine ⟨?_, ?_, ?_⟩
  · intro l hl
    have hmem := (update_emails_links_mem s a batch l).mp hl
    show ∃ r ∈ (upsertEmails a s.emails batch).1,
      r.accountId = l.accountId ∧ r.id = l.emailId
    rcases hmem.1 with hold | ⟨p, hp, rfl⟩
    · exact upsertEmails_key_mono a batch s.emails _ _ (h l hold)
    · rw [mem_emailMailboxPairs] at hp
      obtain ⟨e', he', hm, hid⟩ := hp
      have hk := upsertEmails_batch_key a batch s.emails e' he'
      dsimp only
      rw [hid]
      exact hk
  · intro l hl
    have hl' : l ∈ s.mailboxEmails ∧
        ((s.emails.filter (fun r => r.accountId == a2 && ids.contains r.id)).any
          (fun r => r.accountId == l.accountId && r.id == l.emailId)) = false := by
      have hsplit := List.mem_filter.mp hl
      refine ⟨hsplit.1, ?_⟩
      rw [← Bool.not_eq_true']
      exact hsplit.2
    obtain ⟨hold, hnot⟩ := hl'
    obtain ⟨r, hr, hk1, hk2⟩ := h l hold
    have hrf : (r.accountId == a2 && ids.contains r.id) = false := by
      by_contra hcon
      rw [Bool.not_eq_false] at hcon
      have hrin : r ∈ s.emails.filter (fun r => r.accountId == a2 && ids.contains r.id) :=
        List.mem_filter.mpr ⟨hr, hcon⟩
      have hany : ((s.emails.filter (fun r => r.accountId == a2 && ids.contains r.id)).any
          (fun r => r.accountId == l.accountId && r.id == l.emailId)) = true :=
        List.any_eq_true.mpr ⟨r, hrin, by simp [hk1, hk2]⟩
      rw [hany] at hnot
      cases hnot
    refine ⟨r, ?_, hk1, hk2⟩
    show r ∈ s.emails.filter (fun r => !(r.accountId == a2 && ids.contains r.id))
    refine List.mem_filter.mpr ⟨hr, ?_⟩
    rw [Bool.not_eq_true']
    exact hrf
  · intro l hl
    have hl' : l ∈ s.mailboxEmails := (List.mem_filter.mp hl).1
    exact h l hl'

/-- A store realising the referential invariant with one of everything. -/
def c4Store : Store :=
  { accounts := [⟨1, some "A1"⟩],
    mailboxes := [⟨1, "m1", ⟨"m1", "mp"⟩, none⟩],
    emails := [⟨1, "e1", ⟨"e1", ["m1"], some "S", "p"⟩⟩],
    mailboxEmails := [⟨1, "m1", "e1"⟩] }

/-- C4 witness: the invariant holds of `c4Store` and is preserved by one
concrete run of each operation. -/
theorem C4_ref_integrity_preserved_witness :
    ref_integrity (update_emails c4Store 1 [⟨"e2", ["m1"], some "T", "q"⟩]).1
    ∧ ref_integrity (delete_emails c4Store 1 ["e1"]).1
    ∧ ref_integrity (update_mailboxes_run c4Store 1 "A2" [⟨"m2", "x"⟩] ["m1"] none).1 :=
  C4_ref_integrity_preserved c4Store 1 1 1 [⟨"e2", ["m1"], some "T", "q"⟩]
    ["e1"] "A2" [⟨"m2", "x"⟩] ["m1"] (by unfold ref_integrity; decide)

/-- The `rows_affected` of the mailbox upsert counts every processed row. -/
theorem upsertMailboxes_count (a : AccountId) (upd : List MailboxData) :
    ∀ rows : List MailboxRow, (upsertMailboxes a rows upd).2 = upd.length := by
  induction upd with
  | nil => intro rows; rfl
  | cons hd tl ih =>
    intro rows
    show (upsertMailboxes a (upsertMailboxRow a hd rows) tl).2 + 1 = tl.length + 1
    rw [ih]

/-- Setting the cursor makes the subsequent read return it, as long as the
account row exists. -/
theorem get_sync_state_after_set (t : Store) (a : AccountId) (ns : String)
    (ht : ∃ r ∈ t.accounts, r.id = a) :
    get_mailboxes_sync_state (set_mailboxes_sync_state a ns t) a
      = some (some ns) := by
  unfold get_mailboxes_sync_state set_mailboxes_sync_state
  dsimp only
  rw [find?_map_key _ _ _ (fun x => by
    by_cases hc : (x.id == a) = true
    · rw [if_pos hc]
    · rw [if_neg hc])]
  obtain ⟨r0, hr0, hid0⟩ := ht
  have hsome : (t.accounts.find? (fun r => r.id == a)).isSome := by
    rw [List.find?_isSome]
    exact ⟨r0, hr0, by simp [hid0]⟩
  obtain ⟨r1, hr1⟩ := Option.isSome_iff_exists.mp hsome
  have hkey1 := List.find?_some hr1
  rw [hr1]
  dsimp only [Option.map]
  rw [if_pos hkey1]

/-- C5: all three statements of `Repository::update_mailboxes` — the mailbox
upsert, the mailbox deletion, and the cursor write — commit atomically: a
failure at any of the three points leaves the Store unchanged and fires no
event, while on success the cursor read returns the new state and the
`mailboxes` change event fires exactly when a row was written (some mailbox
was upserted) or deleted (some stored mailbox matched a destroyed id). -/
theorem C5_update_mailboxes_tx_atomic_and_event (s : Store) (a : AccountId)
    (ns : String) (upd : List MailboxData) (del : List String)
    (k : Nat) (hk : k < 3)
    (hacc : ∃ r ∈ s.accounts, r.id = a) :
    update_mailboxes_run s a ns upd del (some k) = (s, none)
    ∧ get_mailboxes_sync_state (update_mailboxes_run s a ns upd del none).1 a
        = some (some ns)
    ∧ ((update_mailboxes_run s a ns upd del none).2 = some true
        ↔ (upd ≠ [] ∨ ∃ r ∈ (upsertMailboxes a s.mailboxes upd).1,
              r.accountId = a ∧ r.id ∈ del)) := by
  refine ⟨?_, ?_, ?_⟩
  · interval_cases k
    · rfl
    · rfl
    · rfl
  · exact get_sync_state_after_set _ a ns hacc
  · have hev : (update_mailboxes_run s a ns upd del none).2
        = some (decide (0 < (upsertMailboxes a s.mailboxes upd).2)
            || decide (0 < (deleteMailboxes a del
                { s with mailboxes := (upsertMailboxes a s.mailboxes upd).1 }).2)) := rfl
    have hd2 : (deleteMailboxes a del
          { s with mailboxes := (upsertMailboxes a s.mailboxes upd).1 }).2
        = ((upsertMailboxes a s.mailboxes upd).1.filter
            (fun r => r.accountId == a && del.contains r.id)).length := rfl
    rw [hev, hd2, upsertMailboxes_count]
    rw [Option.some.injEq, Bool.or_eq_true, decide_eq_true_iff, decide_eq_true_iff]
    constructor
    · rintro (hlen | hfil)
      · exact Or.inl (List.length_pos.mp hlen)
      · right
        rw [List.length_pos] at hfil
        obtain ⟨r, hrf⟩ := List.exists_mem_of_ne_nil _ hfil
        have hr := List.mem_filter.mp hrf
        refine ⟨r, hr.1, ?_⟩
        have hb := hr.2
        simp only [Bool.and_eq_true, beq_iff_eq] at hb
        exact ⟨hb.1, List.elem_iff.mp hb.2⟩
    · rintro (hne | ⟨r, hr, hk1, hk2⟩)
      · exact Or.inl (List.length_pos.mpr hne)
      · right
        rw [List.length_pos]
        intro hnil
        have hrf : r ∈ (upsertMailboxes a s.mailboxes upd).1.filter
            (fun r => r.accountId == a && del.contains r.id) :=
          List.mem_filter.mpr ⟨hr, by
            simp only [Bool.and_eq_true, beq_iff_eq]
            exact ⟨hk1, List.elem_iff.mpr hk2⟩⟩
        rw [hnil] at hrf
        cases hrf

/-- A concrete store for the C5 witness: one account with a cursor, one
mailbox about to be destroyed, and one link into it. -/
def c5Store : Store :=
  { accounts := [⟨1, some "A1"⟩],
    mailboxes := [⟨1, "Sent", ⟨"Sent", "sp"⟩, some "E1"⟩],
    emails := [], mailboxEmails := [] }

/-- C5 witness: a failure at the second statement leaves the store intact
with no event, and the successful run persists the new cursor. -/
theorem C5_update_mailboxes_tx_atomic_and_event_witness :
    update_mailboxes_run c5Store 1 "A2" [⟨"Archive", "ap"⟩] ["Sent"] (some 1)
      = (c5Store, none)
    ∧ get_mailboxes_sync_state
        (update_mailboxes_run c5Store 1 "A2" [⟨"Archive", "ap"⟩] ["Sent"] none).1 1
      = some (some "A2") := by
  have h := C5_update_mailboxes_tx_atomic_and_event c5Store 1 "A2"
    [⟨"Archive", "ap"⟩] ["Sent"] 1 (by omega) (by decide)
  exact ⟨h.1, h.2.1⟩

end MyMail
